import Mathlib

/-!
Shallow embedding of `src/tarp/drp.py` (the TARP coverage diagnostic).

Modelling conventions:
* numpy float64 values are modelled as exact rationals `ℚ`; `np.sqrt` is
  modelled as `Real.sqrt` on the cast to `ℝ` (only the euclidean branch
  needs it).
* a numpy `ndarray` is modelled as `NDArray`: a shape vector plus the
  row-major (C-order) flat data list, exactly the numpy memory model.
* the process-wide numpy random generator (`np.random.seed`,
  `np.random.uniform`, `np.random.randint`) is modelled by explicitly
  threading an `RngState` through every call.  The concrete generator
  `rawRand` is an abstract stand-in for the Mersenne Twister (whose code is
  not part of this repository): what matters for the theorems is only the
  seeding discipline — `np.random.seed s` resets the state to a function of
  `s` alone, and each draw advances the stream deterministically.
* `raise ValueError(msg)` / a failing `assert` is modelled by returning
  `Except.error msg`; the global random state at the raise point is
  returned alongside, since in Python the global generator keeps whatever
  state it had when the exception was thrown.
* `print` warnings and the `tqdm` progress bar have no semantic effect on
  the returned values and are not modelled.
-/

namespace Tarp

/-- State of the global numpy random generator: the lineage seed and the
number of raw draws consumed since that seed was installed. -/
structure RngState where
  seedVal : ℕ
  counter : ℕ
  deriving DecidableEq

/-- Abstract raw generator word (stand-in for the Mersenne Twister output):
a deterministic function of the installed seed and the draw position. -/
def rawRand (s c : ℕ) : ℕ := 1103515245 ^ (c + 1) * (s + 12345) % 2 ^ 31

/-- Model of `np.random.seed`: `some s` resets the global state to a function of `s`
alone; with `None` numpy re-seeds from OS entropy, which we model as
leaving the (arbitrary) ambient state in place. -/
def reseed : Option ℕ → RngState → RngState
  | some s, _ => ⟨s, 0⟩
  | none, st => st

/-- One `np.random.uniform(0, 1)` scalar draw. -/
def uniformDraw (st : RngState) : ℚ × RngState :=
  ((rawRand st.seedVal st.counter : ℚ) / 2 ^ 31, ⟨st.seedVal, st.counter + 1⟩)

/-- Model of `np.random.uniform(0, 1, size=n)` in C-order. -/
def uniformList : ℕ → RngState → List ℚ × RngState
  | 0, st => ([], st)
  | n + 1, st =>
    let (x, st1) := uniformDraw st
    let (xs, st2) := uniformList n st1
    (x :: xs, st2)

/-- One `np.random.randint(low=0, high=hi)` draw. -/
def randintDraw (hi : ℕ) (st : RngState) : ℕ × RngState :=
  (rawRand st.seedVal st.counter % hi, ⟨st.seedVal, st.counter + 1⟩)

/-- Model of `np.random.randint(low=0, high=hi, size=n)`. -/
def randintList (hi : ℕ) : ℕ → RngState → List ℕ × RngState
  | 0, st => ([], st)
  | n + 1, st =>
    let (x, st1) := randintDraw hi st
    let (xs, st2) := randintList hi n st1
    (x :: xs, st2)

/-- A numpy array: shape plus row-major flat data. -/
structure NDArray where
  shape : List ℕ
  data : List ℚ
  deriving DecidableEq

/-- Python `a.ndim` -/
def NDArray.ndim (a : NDArray) : ℕ := a.shape.length

/-- Python `a.shape[i]` -/
def NDArray.dim (a : NDArray) (i : ℕ) : ℕ := a.shape.getD i 0

/-- Element `a[n, d]` of a rank-2 array (row-major). -/
def NDArray.get2 (a : NDArray) (n d : ℕ) : ℚ := a.data.getD (n * a.dim 1 + d) 0

/-- Element `a[s, n, d]` of a rank-3 array (row-major). -/
def NDArray.get3 (a : NDArray) (s n d : ℕ) : ℚ :=
  a.data.getD ((s * a.dim 1 + n) * a.dim 2 + d) 0

/-- The `references` argument: either a string or an array
(`Union[str, np.ndarray]`). -/
inductive Refs where
  | str (s : String)
  | arr (a : NDArray)
  deriving DecidableEq

/-- Rank-3 array as a nested list `[s][n][d]` of its entries. -/
def samplesView (a : NDArray) : List (List (List ℚ)) :=
  (List.range (a.dim 0)).map fun s =>
    (List.range (a.dim 1)).map fun n =>
      (List.range (a.dim 2)).map fun d => a.get3 s n d

/-- Rank-2 array as a nested list `[n][d]` of its entries. -/
def matView (a : NDArray) : List (List ℚ) :=
  (List.range (a.dim 0)).map fun n =>
    (List.range (a.dim 1)).map fun d => a.get2 n d

/-- Python `theta[idx, :]` — numpy fancy indexing on the row axis. -/
def reindexRows (a : NDArray) (idx : List ℕ) : NDArray :=
  ⟨[idx.length, a.dim 1],
    (idx.map fun i => (List.range (a.dim 1)).map fun d => a.get2 i d).flatten⟩

/-- Python `samples[:, idx, :]` — numpy fancy indexing on the middle axis. -/
def reindexMid (a : NDArray) (idx : List ℕ) : NDArray :=
  ⟨[a.dim 0, idx.length, a.dim 2],
    ((List.range (a.dim 0)).map fun s =>
      (idx.map fun i =>
        (List.range (a.dim 2)).map fun d => a.get3 s i d).flatten).flatten⟩

/-- The `1e-10` guard used in the normalization denominators. -/
def eps : ℚ := 1 / 10 ^ 10

/-- Model of `np.min` over a nonempty list (numpy raises on an empty reduction; the
`[]` case is an arbitrary total-function default). -/
def listMin : List ℚ → ℚ
  | [] => 0
  | x :: xs => xs.foldl min x

/-- Model of `np.max` over a nonempty list. -/
def listMax : List ℚ → ℚ
  | [] => 0
  | x :: xs => xs.foldl max x

/-- Column `d` of a rank-2 nested list. -/
def colList (m : List (List ℚ)) (d : ℕ) : List ℚ := m.map fun row => row.getD d 0

/-- Model of `np.min(theta, axis=1, keepdims=True)` for `theta` of shape (1, N, D):
the minimum is taken over axis 1, i.e. over the N datasets, independently
for each of the D dimensions. -/
def lowOf (thetaL : List (List ℚ)) (D : ℕ) : List ℚ :=
  (List.range D).map fun d => listMin (colList thetaL d)

/-- Model of `np.max(theta, axis=1, keepdims=True)`: per-dimension maximum over the
N datasets. -/
def highOf (thetaL : List (List ℚ)) (D : ℕ) : List ℚ :=
  (List.range D).map fun d => listMax (colList thetaL d)

/-- The rescaling `(x - low) / (high - low + 1e-10)`. -/
def normEntry (low high x : ℚ) : ℚ := (x - low) / (high - low + eps)

/-- Rescale one D-vector with the broadcast per-dimension extremes. -/
def normRow (low high : List ℚ) (row : List ℚ) : List ℚ :=
  (List.range low.length).map fun d =>
    normEntry (low.getD d 0) (high.getD d 0) (row.getD d 0)

/-- Lines 112–118 of `drp.py`: compute `low`/`high` from theta and rescale
samples, theta, and — only when references were caller-supplied —
references. -/
def normalizeStage (D : ℕ) (samplesL : List (List (List ℚ)))
    (thetaL refsL : List (List ℚ)) (refsGiven : Bool) :
    List (List (List ℚ)) × List (List ℚ) × List (List ℚ) :=
  let low := lowOf thetaL D
  let high := highOf thetaL D
  (samplesL.map fun mat => mat.map (normRow low high),
   thetaL.map (normRow low high),
   if refsGiven then refsL.map (normRow low high) else refsL)

/-- Euclidean distance between two D-vectors:
`np.sqrt(np.sum((a - b) ** 2, axis=-1))`. -/
noncomputable def euclidDist (a b : List ℚ) : ℝ :=
  Real.sqrt (List.zipWith (fun (x y : ℚ) => ((x : ℝ) - (y : ℝ)) ^ 2) a b).sum

/-- Manhattan distance between two D-vectors:
`np.sum(np.abs(a - b), axis=-1)`. -/
def manhattanDist (a b : List ℚ) : ℚ := (List.zipWith (fun x y => |x - y|) a b).sum

/-- Line 133 of `drp.py`:
`f = np.sum(samples_distances < theta_distances, axis=0) / num_samples`,
stated over any linearly ordered distance scalar so that it covers both the
rational (manhattan) and real (euclidean) distance arrays. -/
def fvals {α : Type} [LinearOrder α] (d0 : α) (sd : List (List α)) (td : List α)
    (numSamples : ℕ) : List ℚ :=
  (List.range td.length).map fun n =>
    ((sd.countP fun row => decide (row.getD n d0 < td.getD n d0)) : ℚ) / numSamples

/-- Histogram bin index of a value `v ∈ [0, 1]` among `k` equal-width bins
over `[0, 1]`: numpy assigns `v` to bin `⌊v·k⌋`, with the right edge of the
last bin closed. -/
def binOf (k : ℕ) (v : ℚ) : ℕ := min (Int.toNat ⌊v * k⌋) (k - 1)

/-- Whether a value falls inside the `np.histogram` window `range=(0, 1)`. -/
def inRange01 (v : ℚ) : Bool := decide (0 ≤ v) && decide (v ≤ 1)

/-- Per-bin counts of `np.histogram(f, bins=k, range=(0, 1))`. -/
def histCounts (k : ℕ) (fs : List ℚ) : List ℕ :=
  (List.range k).map fun j => fs.countP fun v => inRange01 v && decide (binOf k v = j)

/-- The bin edges `np.linspace(0, 1, k + 1)`. -/
def alphaEdges (k : ℕ) : List ℚ := (List.range (k + 1)).map fun (j : ℕ) => (j : ℚ) / k

/-- Heights of `np.histogram(..., density=True)`: `counts / db / counts.sum()`
with `db` the per-bin edge differences. -/
def histDensity (k : ℕ) (fs : List ℚ) : List ℚ :=
  let counts := histCounts k fs
  let total : ℚ := (counts.sum : ℕ)
  let edges := alphaEdges k
  (List.range k).map fun j =>
    ((counts.getD j 0 : ℕ) : ℚ) / (edges.getD (j + 1) 0 - edges.getD j 0) / total

/-- Helper for `np.cumsum`, carrying the running prefix sum. -/
def cumsumAux (acc : ℚ) : List ℚ → List ℚ
  | [] => []
  | x :: xs => (acc + x) :: cumsumAux (acc + x) xs

/-- Model of `np.cumsum`. -/
def cumsum (l : List ℚ) : List ℚ := cumsumAux 0 l

/-- Lines 111–139 of `drp.py`: the numeric tail of
`_get_tarp_coverage_single` after the shape checks and reference
generation: optional normalization, per-metric distances, the credibility
values `f`, and the histogram / cumulative-sum step producing
`(ecp, alpha)`.  The two metric branches instantiate the shared coverage
line (133) at the scalar types of their distance arrays (`ℝ` for euclidean, `ℚ`
for manhattan).  `np.histogram` raises when `bins == 0`, modelled by the
`numBins = 0` error. -/
noncomputable def corePipeline (numSamples numSims numDims numBins : ℕ)
    (samplesL : List (List (List ℚ))) (thetaL refsL : List (List ℚ))
    (refsGiven : Bool) (metric : String) (norm : Bool) :
    Except String (List ℚ × List ℚ) :=
  let normed :=
    if norm then normalizeStage numDims samplesL thetaL refsL refsGiven
    else (samplesL, thetaL, refsL)
  let samplesN := normed.1
  let thetaN := normed.2.1
  let refsN := normed.2.2
  let fRes : Except String (List ℚ) :=
    if metric = "euclidean" then
      let sd : List (List ℝ) := samplesN.map fun mat =>
        (List.range numSims).map fun n => euclidDist (refsN.getD n []) (mat.getD n [])
      let td : List ℝ :=
        (List.range numSims).map fun n => euclidDist (refsN.getD n []) (thetaN.getD n [])
      .ok (fvals (0 : ℝ) sd td numSamples)
    else if metric = "manhattan" then
      let sd : List (List ℚ) := samplesN.map fun mat =>
        (List.range numSims).map fun n => manhattanDist (refsN.getD n []) (mat.getD n [])
      let td : List ℚ :=
        (List.range numSims).map fun n => manhattanDist (refsN.getD n []) (thetaN.getD n [])
      .ok (fvals (0 : ℚ) sd td numSamples)
    else .error "metric must be either euclidean or manhattan"
  match fRes with
  | .error e => .error e
  | .ok f =>
    if numBins = 0 then .error "bins must be positive"
    else
      let alpha := alphaEdges numBins
      let h := histDensity numBins f
      let dx := alpha.getD 1 0 - alpha.getD 0 0
      .ok (0 :: (cumsum h).map (· * dx), alpha)

/-- The function `_get_tarp_coverage_single` (lines 32–139 of `drp.py`).  Control flow
in source order: `np.random.seed(seed)`; the rank checks on samples and
theta; the `num_alpha_bins` default (`num_sims // 10`); the theta
row/column checks; reference generation (uniform draws for the string
`"random"`, shape checks for a supplied array, a failing `assert` for any
other string); then the numeric pipeline.  Returns the Python result
(`Except` for a raised error) together with the global random state left
behind. -/
noncomputable def singlePass (samples theta : NDArray) (references : Refs)
    (metric : String) (numAlphaBins : Option ℕ) (norm : Bool) (seed : Option ℕ)
    (st : RngState) : Except String (List ℚ × List ℚ) × RngState :=
  let st1 := reseed seed st
  if samples.ndim ≠ 3 then (.error "samples must be a 3D array", st1)
  else if theta.ndim ≠ 2 then (.error "theta must be a 2D array", st1)
  else
    let numSamples := samples.dim 0
    let numSims := samples.dim 1
    let numDims := samples.dim 2
    let numBins := numAlphaBins.getD (numSims / 10)
    if theta.dim 0 ≠ numSims then
      (.error "theta must have the same number of rows as samples", st1)
    else if theta.dim 1 ≠ numDims then
      (.error "theta must have the same number of columns as samples", st1)
    else
      match references with
      | .str s =>
        if s = "random" then
          let drawn := uniformList (numSims * numDims) st1
          let refsL := (List.range numSims).map fun n =>
            (List.range numDims).map fun d => drawn.1.getD (n * numDims + d) 0
          (corePipeline numSamples numSims numDims numBins
            (samplesView samples) (matView theta) refsL false metric norm, drawn.2)
        else (.error "references must be an array", st1)
      | .arr r =>
        if r.ndim ≠ 2 then (.error "references must be a 2D array", st1)
        else if r.dim 0 ≠ numSims then
          (.error "references must have the same number of rows as samples", st1)
        else if r.dim 1 ≠ numDims then
          (.error "references must have the same number of columns as samples", st1)
        else
          (corePipeline numSamples numSims numDims numBins
            (samplesView samples) (matView theta) (matView r) true metric norm, st1)

/-- Lines 181–189 of `drp.py`: the resampling of one bootstrap iteration.  A
single index vector `idx` builds `samples[:, idx, :]`, `theta[idx, :]`,
and — only when references is an ndarray — `references[idx, :]`; a string
`references` is passed through unchanged. -/
def bootResample (samples theta : NDArray) (references : Refs) (idx : List ℕ) :
    NDArray × NDArray × Refs :=
  (reindexMid samples idx, reindexRows theta idx,
    match references with
    | .arr r => .arr (reindexRows r idx)
    | .str s => .str s)

/-- The `for i in tqdm(range(num_bootstrap))` loop of
`_get_tarp_coverage_bootstrap`, iterations run front to back: draw `idx`,
co-resample, run `_get_tarp_coverage_single` (which re-applies the seed),
store the row; `alpha` is overwritten by every iteration, so the returned
`alpha` is that of the last iteration (`none` when the loop body never ran). -/
noncomputable def bootLoop (samples theta : NDArray) (references : Refs)
    (metric : String) (numSims numBins : ℕ) (norm : Bool) (seed : Option ℕ) :
    ℕ → RngState → Except String (List (List ℚ) × Option (List ℚ)) × RngState
  | 0, st => (.ok ([], none), st)
  | b + 1, st =>
    let drawn := randintList numSims numSims st
    let res := bootResample samples theta references drawn.1
    match singlePass res.1 res.2.1 res.2.2 metric (some numBins) norm seed drawn.2 with
    | (.error e, st2) => (.error e, st2)
    | (.ok (row, alpha), st2) =>
      match bootLoop samples theta references metric numSims numBins norm seed b st2 with
      | (.error e, st3) => (.error e, st3)
      | (.ok (rows, alphaRest), st3) =>
        (.ok (row :: rows, some (alphaRest.getD alpha)), st3)

/-- The function `_get_tarp_coverage_bootstrap` (lines 142–200 of `drp.py`).  Note that
it never calls `np.random.seed` itself: `num_sims = samples.shape[1]`
(an `IndexError` when `samples.ndim < 2`), the `num_alpha_bins` default,
then the loop. -/
noncomputable def bootstrapCoverage (samples theta : NDArray) (references : Refs)
    (metric : String) (numAlphaBins : Option ℕ) (numBootstrap : ℕ) (norm : Bool)
    (seed : Option ℕ) (st : RngState) :
    Except String (List (List ℚ) × Option (List ℚ)) × RngState :=
  if samples.ndim < 2 then (.error "tuple index out of range", st)
  else
    let numSims := samples.dim 1
    let numBins := numAlphaBins.getD (numSims / 10)
    bootLoop samples theta references metric numSims numBins norm seed numBootstrap st

/-- Return value of `get_tarp_coverage`: a single `(ecp, alpha)` curve, or
the stacked bootstrap ensemble with its (possibly absent) alpha grid. -/
inductive EcpResult where
  | single (ecp alpha : List ℚ)
  | boot (ecp : List (List ℚ)) (alpha : Option (List ℚ))
  deriving DecidableEq

/-- The function `get_tarp_coverage` (lines 203–244 of `drp.py`): dispatch on the
`bootstrap` flag. -/
noncomputable def getTarpCoverage (samples theta : NDArray) (references : Refs)
    (metric : String) (numAlphaBins : Option ℕ) (numBootstrap : ℕ) (norm : Bool)
    (bootstrap : Bool) (seed : Option ℕ) (st : RngState) :
    Except String EcpResult × RngState :=
  if bootstrap then
    match bootstrapCoverage samples theta references metric numAlphaBins numBootstrap
        norm seed st with
    | (.error e, st2) => (.error e, st2)
    | (.ok (rows, a), st2) => (.ok (.boot rows a), st2)
  else
    match singlePass samples theta references metric numAlphaBins norm seed st with
    | (.error e, st2) => (.error e, st2)
    | (.ok (ecp, a), st2) => (.ok (.single ecp a), st2)

/-- The shape-validation table of the specification (section 4.1 /
claim C7), written down independently of the pipeline: the first violated
constraint, in source order, with its message. -/
def specShapeError (samples theta : NDArray) (references : Refs) : Option String :=
  if samples.ndim ≠ 3 then some "samples must be a 3D array"
  else if theta.ndim ≠ 2 then some "theta must be a 2D array"
  else if theta.dim 0 ≠ samples.dim 1 then
    some "theta must have the same number of rows as samples"
  else if theta.dim 1 ≠ samples.dim 2 then
    some "theta must have the same number of columns as samples"
  else
    match references with
    | .str s => if s = "random" then none else some "references must be an array"
    | .arr r =>
      if r.ndim ≠ 2 then some "references must be a 2D array"
      else if r.dim 0 ≠ samples.dim 1 then
        some "references must have the same number of rows as samples"
      else if r.dim 1 ≠ samples.dim 2 then
        some "references must have the same number of columns as samples"
      else none

/-- The normalization of theta as the words of claim C2 describe it: for
each dataset (row) its own minimum and maximum over the D dimensions, and
every entry of that row rescaled with those per-dataset extremes. -/
def specNormalizeThetaPerDataset (thetaL : List (List ℚ)) : List (List ℚ) :=
  thetaL.map fun row => row.map fun x =>
    (x - listMin row) / (listMax row - listMin row + eps)

section Helpers

/-- Evaluating a map over `List.range` at an in-range index. -/
lemma getD_range_map {α : Type} (f : ℕ → α) {n k : ℕ} (h : k < n) (d : α) :
    ((List.range n).map f).getD k d = f k := by
  simp [List.getD_eq_getElem?_getD, List.getElem?_map, List.getElem?_range, h]

/-- Evaluating a mapped list at an in-range index, with any defaults. -/
lemma getD_map_of_lt {α β : Type} (l : List α) (f : α → β) {n : ℕ}
    (h : n < l.length) (d : β) (d' : α) : (l.map f).getD n d = f (l.getD n d') := by
  simp [List.getD_eq_getElem?_getD, List.getElem?_map, List.getElem?_eq_getElem, h]

lemma cumsumAux_length (acc : ℚ) (l : List ℚ) : (cumsumAux acc l).length = l.length := by
  induction l generalizing acc with
  | nil => rfl
  | cons x xs ih => simp [cumsumAux, ih]

lemma cumsum_length (l : List ℚ) : (cumsum l).length = l.length := cumsumAux_length 0 l

/-- Prefix sums of a nonnegative list are bounded below by the accumulator
and pairwise monotone. -/
lemma cumsumAux_nonneg_mono (l : List ℚ) :
    ∀ acc : ℚ, (∀ x ∈ l, 0 ≤ x) →
      (∀ y ∈ cumsumAux acc l, acc ≤ y) ∧ (cumsumAux acc l).Pairwise (· ≤ ·) := by
  induction l with
  | nil => intro acc _; simp [cumsumAux]
  | cons x xs ih =>
    intro acc h
    have hx : 0 ≤ x := h x (by simp)
    have hxs : ∀ y ∈ xs, 0 ≤ y := fun y hy => h y (by simp [hy])
    obtain ⟨hlb, hpw⟩ := ih (acc + x) hxs
    refine ⟨?_, ?_⟩
    · intro y hy
      rcases List.mem_cons.1 hy with rfl | hy'
      · linarith
      · linarith [hlb y hy']
    · exact List.pairwise_cons.2 ⟨fun y hy => hlb y hy, hpw⟩

lemma histCounts_length (k : ℕ) (fs : List ℚ) : (histCounts k fs).length = k := by
  unfold histCounts
  rw [List.length_map, List.length_range]

lemma histDensity_length (k : ℕ) (fs : List ℚ) : (histDensity k fs).length = k := by
  unfold histDensity
  rw [List.length_map, List.length_range]

lemma alphaEdges_length (k : ℕ) : (alphaEdges k).length = k + 1 := by
  unfold alphaEdges
  rw [List.length_map, List.length_range]

lemma alphaEdges_getD {k j : ℕ} (h : j ≤ k) : (alphaEdges k).getD j 0 = (j : ℚ) / k := by
  unfold alphaEdges
  exact getD_range_map (fun (j : ℕ) => (j : ℚ) / k) (show j < k + 1 by omega) 0

/-- Every density-histogram height is nonnegative. -/
lemma histDensity_nonneg (k : ℕ) (fs : List ℚ) :
    ∀ x ∈ histDensity k fs, 0 ≤ x := by
  intro x hx
  simp only [histDensity, List.mem_map, List.mem_range] at hx
  obtain ⟨j, hj, rfl⟩ := hx
  have h1 : (alphaEdges k).getD (j + 1) 0 = ((j + 1 : ℕ) : ℚ) / k := alphaEdges_getD (by omega)
  have h2 : (alphaEdges k).getD j 0 = (j : ℚ) / k := alphaEdges_getD (by omega)
  rw [h1, h2]
  have hd : (0 : ℚ) ≤ ((j + 1 : ℕ) : ℚ) / k - (j : ℚ) / k := by
    rw [div_sub_div_same]
    push_cast
    ring_nf
    positivity
  positivity

lemma randintList_length (hi n : ℕ) (st : RngState) : (randintList hi n st).1.length = n := by
  induction n generalizing st with
  | zero => rfl
  | succ m ih => simp [randintList, ih]

lemma randintList_lt (hi n : ℕ) (st : RngState) (hhi : 0 < hi) :
    ∀ v ∈ (randintList hi n st).1, v < hi := by
  induction n generalizing st with
  | zero => intro v hv; simp [randintList] at hv
  | succ m ih =>
    intro v hv
    simp only [randintList, randintDraw] at hv
    rcases List.mem_cons.1 hv with rfl | hv'
    · exact Nat.mod_lt _ hhi
    · exact ih _ v hv'

lemma foldl_min_le_init (l : List ℚ) : ∀ a : ℚ, l.foldl min a ≤ a := by
  induction l with
  | nil => intro a; simp
  | cons x xs ih => intro a; exact le_trans (ih (min a x)) (min_le_left a x)

lemma foldl_min_le_mem (l : List ℚ) : ∀ a : ℚ, ∀ x ∈ l, l.foldl min a ≤ x := by
  induction l with
  | nil => intro a x hx; simp at hx
  | cons y ys ih =>
    intro a x hx
    rcases List.mem_cons.1 hx with rfl | hx'
    · exact le_trans (foldl_min_le_init ys (min a x)) (min_le_right a x)
    · exact ih (min a y) x hx'

lemma foldl_min_mem (l : List ℚ) : ∀ a : ℚ, l.foldl min a = a ∨ l.foldl min a ∈ l := by
  induction l with
  | nil => intro a; simp
  | cons x xs ih =>
    intro a
    rcases ih (min a x) with h | h
    · rcases min_cases a x with ⟨hm, _⟩ | ⟨hm, _⟩
      · left; rw [List.foldl_cons, h, hm]
      · right; rw [List.foldl_cons, h, hm]; simp
    · right; simp [h]

lemma listMin_le (l : List ℚ) (x : ℚ) (hx : x ∈ l) : listMin l ≤ x := by
  cases l with
  | nil => simp at hx
  | cons y ys =>
    rcases List.mem_cons.1 hx with rfl | hx'
    · exact foldl_min_le_init ys x
    · exact foldl_min_le_mem ys y x hx'

lemma listMin_mem (l : List ℚ) (hl : l ≠ []) : listMin l ∈ l := by
  cases l with
  | nil => exact absurd rfl hl
  | cons y ys =>
    rcases foldl_min_mem ys y with h | h
    · simp [listMin, h]
    · simp [listMin, h]

lemma foldl_max_init_le (l : List ℚ) : ∀ a : ℚ, a ≤ l.foldl max a := by
  induction l with
  | nil => intro a; simp
  | cons x xs ih => intro a; exact le_trans (le_max_left a x) (ih (max a x))

lemma foldl_max_mem_le (l : List ℚ) : ∀ a : ℚ, ∀ x ∈ l, x ≤ l.foldl max a := by
  induction l with
  | nil => intro a x hx; simp at hx
  | cons y ys ih =>
    intro a x hx
    rcases List.mem_cons.1 hx with rfl | hx'
    · exact le_trans (le_max_right a x) (foldl_max_init_le ys (max a x))
    · exact ih (max a y) x hx'

lemma foldl_max_mem (l : List ℚ) : ∀ a : ℚ, l.foldl max a = a ∨ l.foldl max a ∈ l := by
  induction l with
  | nil => intro a; simp
  | cons x xs ih =>
    intro a
    rcases ih (max a x) with h | h
    · rcases max_cases a x with ⟨hm, _⟩ | ⟨hm, _⟩
      · left; rw [List.foldl_cons, h, hm]
      · right; rw [List.foldl_cons, h, hm]; simp
    · right; simp [h]

lemma listMax_le (l : List ℚ) (x : ℚ) (hx : x ∈ l) : x ≤ listMax l := by
  cases l with
  | nil => simp at hx
  | cons y ys =>
    rcases List.mem_cons.1 hx with rfl | hx'
    · exact foldl_max_init_le ys x
    · exact foldl_max_mem_le ys y x hx'

lemma listMax_mem (l : List ℚ) (hl : l ≠ []) : listMax l ∈ l := by
  cases l with
  | nil => exact absurd rfl hl
  | cons y ys =>
    rcases foldl_max_mem ys y with h | h
    · simp [listMax, h]
    · simp [listMax, h]

/-- Indexing a concatenation of constant-length blocks. -/
lemma flatten_getD_const {α : Type} (rows : List (List α)) (L : ℕ)
    (hL : ∀ r ∈ rows, r.length = L) : ∀ {n d : ℕ}, n < rows.length → d < L →
      ∀ x : α, rows.flatten.getD (n * L + d) x = (rows.getD n []).getD d x := by
  induction rows with
  | nil => intro n d hn _ x; simp at hn
  | cons r rs ih =>
    intro n d hn hd x
    have hr : r.length = L := hL r (by simp)
    cases n with
    | zero =>
      rw [List.flatten_cons, List.getD_eq_getElem?_getD, List.getElem?_append_left (by omega),
        ← List.getD_eq_getElem?_getD]
      simp
    | succ m =>
      have hidx : r.length ≤ (m + 1) * L + d := by
        rw [hr]; calc L ≤ (m + 1) * L := by nlinarith
          _ ≤ (m + 1) * L + d := by omega
      rw [List.flatten_cons, List.getD_eq_getElem?_getD, List.getElem?_append_right hidx,
        ← List.getD_eq_getElem?_getD]
      have harith : (m + 1) * L + d - r.length = m * L + d := by rw [hr]; ring_nf; omega
      rw [harith]
      exact ih (fun q hq => hL q (by simp [hq])) (by simpa using hn) hd x

lemma flatten_length_const {α : Type} (rows : List (List α)) (L : ℕ)
    (hL : ∀ r ∈ rows, r.length = L) : rows.flatten.length = rows.length * L := by
  induction rows with
  | nil => simp
  | cons r rs ih =>
    rw [List.flatten_cons, List.length_append, hL r (by simp),
      ih (fun q hq => hL q (by simp [hq])), List.length_cons]
    ring

/-- Row reindexing pointwise: `theta[idx, :][n, d] = theta[idx[n], d]`. -/
lemma reindexRows_get2 (a : NDArray) (idx : List ℕ) {n d : ℕ}
    (hn : n < idx.length) (hd : d < a.dim 1) :
    (reindexRows a idx).get2 n d = a.get2 (idx.getD n 0) d := by
  have hdim : (reindexRows a idx).dim 1 = a.dim 1 := rfl
  unfold NDArray.get2
  rw [hdim]
  unfold reindexRows
  have hL : ∀ r ∈ idx.map fun i => (List.range (a.dim 1)).map fun d => a.get2 i d,
      r.length = a.dim 1 := by
    intro r hr
    obtain ⟨i, _, rfl⟩ := List.mem_map.1 hr
    rw [List.length_map, List.length_range]
  rw [show (⟨[idx.length, a.dim 1],
      (idx.map fun i => (List.range (a.dim 1)).map fun d => a.get2 i d).flatten⟩ :
        NDArray).data =
      (idx.map fun i => (List.range (a.dim 1)).map fun d => a.get2 i d).flatten from rfl]
  rw [flatten_getD_const _ (a.dim 1) hL (by simpa using hn) hd]
  rw [getD_map_of_lt idx _ hn _ 0]
  exact getD_range_map _ hd 0

/-- Middle-axis reindexing pointwise: `samples[:, idx, :][s, n, d] = samples[s, idx[n], d]`. -/
lemma reindexMid_get3 (a : NDArray) (idx : List ℕ) {s n d : ℕ}
    (hs : s < a.dim 0) (hn : n < idx.length) (hd : d < a.dim 2) :
    (reindexMid a idx).get3 s n d = a.get3 s (idx.getD n 0) d := by
  have h1 : (reindexMid a idx).dim 1 = idx.length := rfl
  have h2 : (reindexMid a idx).dim 2 = a.dim 2 := rfl
  unfold NDArray.get3
  rw [h1, h2]
  unfold reindexMid
  set inner := fun (s : ℕ) =>
    (idx.map fun i => (List.range (a.dim 2)).map fun d => a.get3 s i d).flatten with hinner
  have hLin : ∀ (s : ℕ), ∀ r ∈ idx.map fun i =>
      (List.range (a.dim 2)).map fun d => a.get3 s i d, r.length = a.dim 2 := by
    intro s r hr
    obtain ⟨i, _, rfl⟩ := List.mem_map.1 hr
    rw [List.length_map, List.length_range]
  have hLout : ∀ r ∈ (List.range (a.dim 0)).map inner, r.length = idx.length * a.dim 2 := by
    intro r hr
    obtain ⟨i, _, rfl⟩ := List.mem_map.1 hr
    rw [hinner]
    exact (flatten_length_const _ _ (hLin i)).trans (by rw [List.length_map])
  have harith : (s * idx.length + n) * a.dim 2 + d =
      s * (idx.length * a.dim 2) + (n * a.dim 2 + d) := by ring
  have hnd : n * a.dim 2 + d < idx.length * a.dim 2 := by
    calc n * a.dim 2 + d < n * a.dim 2 + a.dim 2 := by omega
      _ = (n + 1) * a.dim 2 := by ring
      _ ≤ idx.length * a.dim 2 := Nat.mul_le_mul_right _ (by omega)
  rw [show (⟨[a.dim 0, idx.length, a.dim 2],
      ((List.range (a.dim 0)).map inner).flatten⟩ : NDArray).data =
      ((List.range (a.dim 0)).map inner).flatten from rfl]
  rw [harith,
    flatten_getD_const _ (idx.length * a.dim 2) hLout
      (by rw [List.length_map, List.length_range]; exact hs) hnd]
  rw [getD_range_map inner hs []]
  rw [hinner]
  rw [flatten_getD_const _ (a.dim 2) (hLin s) (by simpa using hn) hd]
  rw [getD_map_of_lt idx _ hn _ 0]
  exact getD_range_map _ hd 0

/-- Characterization of the credibility values at an in-range index. -/
lemma fvals_getD {α : Type} [LinearOrder α] (d0 : α) (sd : List (List α)) (td : List α)
    (S : ℕ) {n : ℕ} (hn : n < td.length) :
    (fvals d0 sd td S).getD n 0 =
      ((sd.countP fun row => decide (row.getD n d0 < td.getD n d0)) : ℚ) / S := by
  unfold fvals
  exact getD_range_map _ hn 0

/-- A successful `corePipeline` run means: the bin count was nonzero, the
returned grid is `alphaEdges`, and `ecp` is the zero-prefixed scaled
cumulative sum of a density histogram. -/
lemma corePipeline_ok_inv {S N D k : ℕ} {sL : List (List (List ℚ))}
    {tL rL : List (List ℚ)} {g : Bool} {metric : String} {nrm : Bool}
    {ecp alpha : List ℚ}
    (h : corePipeline S N D k sL tL rL g metric nrm = .ok (ecp, alpha)) :
    k ≠ 0 ∧ alpha = alphaEdges k ∧ ∃ f : List ℚ,
      ecp = 0 :: (cumsum (histDensity k f)).map
        (· * ((alphaEdges k).getD 1 0 - (alphaEdges k).getD 0 0)) := by
  simp only [corePipeline] at h
  split at h
  · simp at h
  · split at h
    · simp at h
    · rw [Except.ok.injEq, Prod.mk.injEq] at h
      exact ⟨by assumption, h.2.symm, _, h.1.symm⟩

/-- A successful `singlePass` run factors through `corePipeline` with the
bin count `num_alpha_bins` defaulted to `samples.shape[1] // 10`. -/
lemma singlePass_ok_inv {samples theta : NDArray} {references : Refs}
    {metric : String} {numAlphaBins : Option ℕ} {norm : Bool} {seed : Option ℕ}
    {st st' : RngState} {ecp alpha : List ℚ}
    (h : singlePass samples theta references metric numAlphaBins norm seed st =
      (.ok (ecp, alpha), st')) :
    ∃ (sL : List (List (List ℚ))) (tL rL : List (List ℚ)) (g : Bool),
      corePipeline (samples.dim 0) (samples.dim 1) (samples.dim 2)
        (numAlphaBins.getD (samples.dim 1 / 10)) sL tL rL g metric norm =
        .ok (ecp, alpha) := by
  simp only [singlePass] at h
  split at h
  · simp at h
  · split at h
    · simp at h
    · split at h
      · simp at h
      · split at h
        · simp at h
        · rcases references with s | r
          · simp only at h
            split at h
            · rw [Prod.mk.injEq] at h
              exact ⟨_, _, _, _, h.1⟩
            · simp at h
          · simp only at h
            split at h
            · simp at h
            · split at h
              · simp at h
              · split at h
                · simp at h
                · rw [Prod.mk.injEq] at h
                  exact ⟨_, _, _, _, h.1⟩

/-- With a concrete seed the single pass is a function of the seed alone,
not of the ambient random state: `np.random.seed(seed)` runs first. -/
lemma singlePass_seeded_st_irrel (samples theta : NDArray) (references : Refs)
    (metric : String) (numAlphaBins : Option ℕ) (norm : Bool) (s : ℕ)
    (st st' : RngState) :
    singlePass samples theta references metric numAlphaBins norm (some s) st =
      singlePass samples theta references metric numAlphaBins norm (some s) st' := rfl

lemma lowOf_length (thetaL : List (List ℚ)) (D : ℕ) : (lowOf thetaL D).length = D := by
  unfold lowOf
  rw [List.length_map, List.length_range]

lemma highOf_length (thetaL : List (List ℚ)) (D : ℕ) : (highOf thetaL D).length = D := by
  unfold highOf
  rw [List.length_map, List.length_range]

lemma lowOf_getD (thetaL : List (List ℚ)) {D d : ℕ} (hd : d < D) :
    (lowOf thetaL D).getD d 0 = listMin (colList thetaL d) := by
  unfold lowOf
  exact getD_range_map _ hd 0

lemma highOf_getD (thetaL : List (List ℚ)) {D d : ℕ} (hd : d < D) :
    (highOf thetaL D).getD d 0 = listMax (colList thetaL d) := by
  unfold highOf
  exact getD_range_map _ hd 0

/-- The function `normRow` evaluated entrywise. -/
lemma normRow_getD (low high row : List ℚ) {d : ℕ} (hd : d < low.length) :
    (normRow low high row).getD d 0 =
      (row.getD d 0 - low.getD d 0) / (high.getD d 0 - low.getD d 0 + eps) := by
  unfold normRow
  rw [getD_range_map _ hd 0]
  rfl

/-- The sum of a `zipWith` over two lists of equal length `D`, as a
`Finset.range` sum of entrywise terms. -/
lemma zipWith_sum_range {β : Type} [AddCommMonoid β] (g : ℚ → ℚ → β) :
    ∀ (D : ℕ) (a b : List ℚ), a.length = D → b.length = D →
      (List.zipWith g a b).sum = ∑ i ∈ Finset.range D, g (a.getD i 0) (b.getD i 0) := by
  intro D
  induction D with
  | zero =>
    intro a b ha hb
    rw [List.length_eq_zero] at ha hb
    subst ha; subst hb
    simp
  | succ m ih =>
    intro a b ha hb
    cases a with
    | nil => simp at ha
    | cons x xs =>
      cases b with
      | nil => simp at hb
      | cons y ys =>
        simp only [List.length_cons, Nat.succ.injEq] at ha hb
        rw [List.zipWith_cons_cons, List.sum_cons, ih xs ys ha hb,
          Finset.sum_range_succ']
        simp only [List.getD_cons_succ, List.getD_cons_zero]
        exact add_comm _ _

end Helpers

section ConcreteEvaluations

/-!
Closed-form evaluations of the pipeline on the small concrete inputs used
by the witnesses and counterexamples below.  The base scenario is
S = 1 posterior draw, N = 2 datasets, D = 1 dimension:
samples `[[1/4], [3/4]]` (per dataset), theta `[0, 1]`, supplied
references `[0, 0]`, manhattan metric, no normalization, 2 alpha bins.
Dataset 0 then has credibility 0 (the sample is farther from the
reference than the truth) and dataset 1 has credibility 1.
-/

lemma eval_rand_s0 : randintList 2 2 ⟨0, 0⟩ = ([1, 1], ⟨0, 2⟩) := by decide

lemma eval_rand_s1 : randintList 2 2 ⟨1, 0⟩ = ([0, 0], ⟨1, 2⟩) := by decide

lemma eval_res_idx00 :
    bootResample ⟨[1,2,1], [1/4, 3/4]⟩ ⟨[2,1], [0, 1]⟩ (.arr ⟨[2,1], [0, 0]⟩) [0, 0] =
      (⟨[1,2,1], [1/4, 1/4]⟩, ⟨[2,1], [0, 0]⟩, .arr ⟨[2,1], [0, 0]⟩) := by
  norm_num [bootResample, reindexMid, reindexRows, NDArray.get2, NDArray.get3,
    NDArray.dim, List.range_succ]

lemma eval_res_idx11 :
    bootResample ⟨[1,2,1], [1/4, 3/4]⟩ ⟨[2,1], [0, 1]⟩ (.arr ⟨[2,1], [0, 0]⟩) [1, 1] =
      (⟨[1,2,1], [3/4, 3/4]⟩, ⟨[2,1], [1, 1]⟩, .arr ⟨[2,1], [0, 0]⟩) := by
  norm_num [bootResample, reindexMid, reindexRows, NDArray.get2, NDArray.get3,
    NDArray.dim, List.range_succ]

lemma eval_res_oversized_theta :
    bootResample ⟨[1,2,1], [1/4, 3/4]⟩ ⟨[3,1], [5, 7, 9]⟩ (.arr ⟨[2,1], [0, 0]⟩) [1, 1] =
      (⟨[1,2,1], [3/4, 3/4]⟩, ⟨[2,1], [7, 7]⟩, .arr ⟨[2,1], [0, 0]⟩) := by
  norm_num [bootResample, reindexMid, reindexRows, NDArray.get2, NDArray.get3,
    NDArray.dim, List.range_succ]

lemma eval_sview_base : samplesView ⟨[1,2,1], [1/4, 3/4]⟩ = [[[1/4], [3/4]]] := by
  norm_num [samplesView, NDArray.dim, NDArray.get3, List.range_succ]

lemma eval_sview00 : samplesView ⟨[1,2,1], [1/4, 1/4]⟩ = [[[1/4], [1/4]]] := by
  norm_num [samplesView, NDArray.dim, NDArray.get3, List.range_succ]

lemma eval_sview11 : samplesView ⟨[1,2,1], [3/4, 3/4]⟩ = [[[3/4], [3/4]]] := by
  norm_num [samplesView, NDArray.dim, NDArray.get3, List.range_succ]

lemma eval_mview01 : matView ⟨[2,1], [0, 1]⟩ = [[0], [1]] := by
  norm_num [matView, NDArray.dim, NDArray.get2, List.range_succ]

lemma eval_mview00 : matView ⟨[2,1], [0, 0]⟩ = [[0], [0]] := by
  norm_num [matView, NDArray.dim, NDArray.get2, List.range_succ]

lemma eval_mview11 : matView ⟨[2,1], [1, 1]⟩ = [[1], [1]] := by
  norm_num [matView, NDArray.dim, NDArray.get2, List.range_succ]

lemma eval_mview77 : matView ⟨[2,1], [7, 7]⟩ = [[7], [7]] := by
  norm_num [matView, NDArray.dim, NDArray.get2, List.range_succ]

lemma eval_core_base :
    corePipeline 1 2 1 2 [[[1/4], [3/4]]] [[0], [1]] [[0], [0]] true "manhattan" false =
      .ok ([0, 1/2, 1], [0, 1/2, 1]) := by
  have hs : ("manhattan" = "euclidean") = False := by decide
  norm_num [corePipeline, hs, fvals, manhattanDist, List.range_succ, List.countP_cons,
    histDensity, histCounts, alphaEdges, binOf, inRange01, cumsum, cumsumAux,
    abs_of_nonneg, abs_of_nonpos]

lemma eval_core00 :
    corePipeline 1 2 1 2 [[[1/4], [1/4]]] [[0], [0]] [[0], [0]] true "manhattan" false =
      .ok ([0, 1, 1], [0, 1/2, 1]) := by
  have hs : ("manhattan" = "euclidean") = False := by decide
  norm_num [corePipeline, hs, fvals, manhattanDist, List.range_succ, List.countP_cons,
    histDensity, histCounts, alphaEdges, binOf, inRange01, cumsum, cumsumAux,
    abs_of_nonneg, abs_of_nonpos]

lemma eval_core11 :
    corePipeline 1 2 1 2 [[[3/4], [3/4]]] [[1], [1]] [[0], [0]] true "manhattan" false =
      .ok ([0, 0, 1], [0, 1/2, 1]) := by
  have hs : ("manhattan" = "euclidean") = False := by decide
  norm_num [corePipeline, hs, fvals, manhattanDist, List.range_succ, List.countP_cons,
    histDensity, histCounts, alphaEdges, binOf, inRange01, cumsum, cumsumAux,
    abs_of_nonneg, abs_of_nonpos]

lemma eval_core77 :
    corePipeline 1 2 1 1 [[[3/4], [3/4]]] [[7], [7]] [[0], [0]] true "manhattan" false =
      .ok ([0, 1], [0, 1]) := by
  have hs : ("manhattan" = "euclidean") = False := by decide
  norm_num [corePipeline, hs, fvals, manhattanDist, List.range_succ, List.countP_cons,
    histDensity, histCounts, alphaEdges, binOf, inRange01, cumsum, cumsumAux,
    abs_of_nonneg, abs_of_nonpos]

lemma eval_single_base :
    singlePass ⟨[1,2,1], [1/4, 3/4]⟩ ⟨[2,1], [0, 1]⟩ (.arr ⟨[2,1], [0, 0]⟩)
      "manhattan" (some 2) false none ⟨0, 0⟩ =
      (.ok ([0, 1/2, 1], [0, 1/2, 1]), ⟨0, 0⟩) := by
  simp only [singlePass, reseed]
  norm_num [NDArray.ndim, NDArray.dim, eval_sview_base, eval_mview01, eval_mview00,
    eval_core_base]

lemma eval_single00 (st : RngState) :
    singlePass ⟨[1,2,1], [1/4, 1/4]⟩ ⟨[2,1], [0, 0]⟩ (.arr ⟨[2,1], [0, 0]⟩)
      "manhattan" (some 2) false (some 0) st =
      (.ok ([0, 1, 1], [0, 1/2, 1]), ⟨0, 0⟩) := by
  simp only [singlePass, reseed]
  norm_num [NDArray.ndim, NDArray.dim, eval_sview00, eval_mview00, eval_core00]

lemma eval_single11 (st : RngState) :
    singlePass ⟨[1,2,1], [3/4, 3/4]⟩ ⟨[2,1], [1, 1]⟩ (.arr ⟨[2,1], [0, 0]⟩)
      "manhattan" (some 2) false (some 0) st =
      (.ok ([0, 0, 1], [0, 1/2, 1]), ⟨0, 0⟩) := by
  simp only [singlePass, reseed]
  norm_num [NDArray.ndim, NDArray.dim, eval_sview11, eval_mview11, eval_mview00,
    eval_core11]

lemma eval_single77 (st : RngState) :
    singlePass ⟨[1,2,1], [3/4, 3/4]⟩ ⟨[2,1], [7, 7]⟩ (.arr ⟨[2,1], [0, 0]⟩)
      "manhattan" (some 1) false none st =
      (.ok ([0, 1], [0, 1]), st) := by
  simp only [singlePass, reseed]
  norm_num [NDArray.ndim, NDArray.dim, eval_sview11, eval_mview77, eval_mview00,
    eval_core77]

end ConcreteEvaluations

/-- C4: the per-dataset credibility value is exactly the number of samples
whose distance to the reference is strictly smaller than the distance of
the truth, divided by the number of samples `S`, and it always lies in
`[0, 1]`. -/
theorem c4_credibility_fraction {α : Type} [LinearOrder α] (d0 : α)
    (sd : List (List α)) (td : List α) (S n : ℕ)
    (hS : sd.length = S) (hS0 : 0 < S) (hn : n < td.length) :
    (fvals d0 sd td S).getD n 0 =
      ((sd.countP fun row => decide (row.getD n d0 < td.getD n d0)) : ℚ) / S ∧
    0 ≤ (fvals d0 sd td S).getD n 0 ∧ (fvals d0 sd td S).getD n 0 ≤ 1 := by
  have hf := fvals_getD d0 sd td S hn
  refine ⟨hf, ?_, ?_⟩
  · rw [hf]; positivity
  · rw [hf, div_le_one (by exact_mod_cast hS0), Nat.cast_le]
    exact hS ▸ List.countP_le_length _

/-- Witness for C4: with a single sample per dataset at distances 1 and 3
from the reference and the truth at distance 2, dataset 0 has credibility
1/1 and the value is the strict-closer count over S, inside `[0, 1]`. -/
theorem c4_witness :
    ((fvals (0 : ℚ) [[1, 3]] [2, 2] 1).getD 0 0 =
      (([[1, 3]] : List (List ℚ)).countP
        (fun row => decide (row.getD 0 (0 : ℚ) < ([2, 2] : List ℚ).getD 0 0)) : ℚ) / 1 ∧
    0 ≤ (fvals (0 : ℚ) [[1, 3]] [2, 2] 1).getD 0 0 ∧
    (fvals (0 : ℚ) [[1, 3]] [2, 2] 1).getD 0 0 ≤ 1) :=
  c4_credibility_fraction (0 : ℚ) [[1, 3]] [2, 2] 1 0 rfl (by decide) (by decide)

/-- C5: every successful single pass returns an `ecp` of length
`num_alpha_bins + 1` (with the `n_sims // 10` default applied), whose first
element is exactly 0 and which is monotone non-decreasing along its whole
length. -/
theorem c5_ecp_zero_start_monotone (samples theta : NDArray) (references : Refs)
    (metric : String) (numAlphaBins : Option ℕ) (norm : Bool) (seed : Option ℕ)
    (st st' : RngState) (ecp alpha : List ℚ)
    (h : singlePass samples theta references metric numAlphaBins norm seed st =
      (.ok (ecp, alpha), st')) :
    ecp.length = numAlphaBins.getD (samples.dim 1 / 10) + 1 ∧
    ecp.getD 0 0 = 0 ∧ ecp.Pairwise (· ≤ ·) := by
  obtain ⟨sL, tL, rL, g, hc⟩ := singlePass_ok_inv h
  obtain ⟨hk, -, f, he⟩ := corePipeline_ok_inv hc
  set k := numAlphaBins.getD (samples.dim 1 / 10) with hkdef
  subst he
  have hdx0 : (alphaEdges k).getD 0 0 = 0 := by
    rw [alphaEdges_getD (Nat.zero_le k)]; simp
  have hdx1 : (alphaEdges k).getD 1 0 = 1 / k := by
    rw [alphaEdges_getD (by omega : 1 ≤ k)]; norm_num
  have hdxnn : (0 : ℚ) ≤ (alphaEdges k).getD 1 0 - (alphaEdges k).getD 0 0 := by
    rw [hdx0, hdx1, sub_zero]; positivity
  refine ⟨?_, rfl, ?_⟩
  · rw [List.length_cons, List.length_map, cumsum_length, histDensity_length]
  · obtain ⟨hlb, hpw⟩ := cumsumAux_nonneg_mono (histDensity k f) 0 (histDensity_nonneg k f)
    unfold cumsum
    refine List.pairwise_cons.2 ⟨?_, ?_⟩
    · intro y hy
      obtain ⟨z, hz, rfl⟩ := List.mem_map.1 hy
      exact mul_nonneg (hlb z hz) hdxnn
    · exact hpw.map _ (fun a b hab => mul_le_mul_of_nonneg_right hab hdxnn)

/-- Witness for C5 at the base scenario: `ecp = [0, 1/2, 1]` with 2 bins. -/
theorem c5_witness :
    ([0, 1/2, 1] : List ℚ).length =
      (some 2).getD ((⟨[1,2,1], [1/4, 3/4]⟩ : NDArray).dim 1 / 10) + 1 ∧
    ([0, 1/2, 1] : List ℚ).getD 0 0 = 0 ∧
    ([0, 1/2, 1] : List ℚ).Pairwise (· ≤ ·) :=
  c5_ecp_zero_start_monotone ⟨[1,2,1], [1/4, 3/4]⟩ ⟨[2,1], [0, 1]⟩
    (.arr ⟨[2,1], [0, 0]⟩) "manhattan" (some 2) false none ⟨0, 0⟩ ⟨0, 0⟩
    [0, 1/2, 1] [0, 1/2, 1] eval_single_base

/-- C9: every successful single pass returns the alpha grid determined by
the bin count alone: `bins + 1` entries, starting at 0, ending at 1,
strictly increasing with constant spacing `1 / bins`. -/
theorem c9_alpha_grid (samples theta : NDArray) (references : Refs)
    (metric : String) (numAlphaBins : Option ℕ) (norm : Bool) (seed : Option ℕ)
    (st st' : RngState) (ecp alpha : List ℚ)
    (h : singlePass samples theta references metric numAlphaBins norm seed st =
      (.ok (ecp, alpha), st')) :
    alpha = alphaEdges (numAlphaBins.getD (samples.dim 1 / 10)) ∧
    alpha.length = numAlphaBins.getD (samples.dim 1 / 10) + 1 ∧
    alpha.getD 0 0 = 0 ∧
    alpha.getD (numAlphaBins.getD (samples.dim 1 / 10)) 0 = 1 ∧
    (∀ j < numAlphaBins.getD (samples.dim 1 / 10),
      alpha.getD (j + 1) 0 - alpha.getD j 0 =
        1 / (numAlphaBins.getD (samples.dim 1 / 10) : ℚ)) ∧
    alpha.Pairwise (· < ·) := by
  obtain ⟨sL, tL, rL, g, hc⟩ := singlePass_ok_inv h
  obtain ⟨hk, ha, -⟩ := corePipeline_ok_inv hc
  set k := numAlphaBins.getD (samples.dim 1 / 10) with hkdef
  subst ha
  have hkpos : 0 < k := Nat.pos_of_ne_zero hk
  refine ⟨rfl, alphaEdges_length k, ?_, ?_, ?_, ?_⟩
  · rw [alphaEdges_getD (Nat.zero_le k)]; simp
  · rw [alphaEdges_getD (le_refl k), div_self (by exact_mod_cast hk)]
  · intro j hj
    rw [alphaEdges_getD (by omega), alphaEdges_getD (by omega), div_sub_div_same]
    push_cast
    ring_nf
  · unfold alphaEdges
    refine (List.pairwise_lt_range (k + 1)).map _ (fun a b hab => ?_)
    have hkq : (0 : ℚ) < k := by exact_mod_cast hkpos
    have hab' : (a : ℚ) < b := by exact_mod_cast hab
    exact (div_lt_div_iff_of_pos_right hkq).2 hab' 

/-- Witness for C9 at the base scenario: `alpha = [0, 1/2, 1]`. -/
theorem c9_witness :
    ([0, 1/2, 1] : List ℚ) =
      alphaEdges ((some 2).getD ((⟨[1,2,1], [1/4, 3/4]⟩ : NDArray).dim 1 / 10)) ∧
    ([0, 1/2, 1] : List ℚ).length =
      (some 2).getD ((⟨[1,2,1], [1/4, 3/4]⟩ : NDArray).dim 1 / 10) + 1 ∧
    ([0, 1/2, 1] : List ℚ).getD 0 0 = 0 ∧
    ([0, 1/2, 1] : List ℚ).getD
      ((some 2).getD ((⟨[1,2,1], [1/4, 3/4]⟩ : NDArray).dim 1 / 10)) 0 = 1 ∧
    (∀ j < (some 2).getD ((⟨[1,2,1], [1/4, 3/4]⟩ : NDArray).dim 1 / 10),
      ([0, 1/2, 1] : List ℚ).getD (j + 1) 0 - ([0, 1/2, 1] : List ℚ).getD j 0 =
        1 / ((some 2).getD ((⟨[1,2,1], [1/4, 3/4]⟩ : NDArray).dim 1 / 10) : ℚ)) ∧
    ([0, 1/2, 1] : List ℚ).Pairwise (· < ·) :=
  c9_alpha_grid ⟨[1,2,1], [1/4, 3/4]⟩ ⟨[2,1], [0, 1]⟩ (.arr ⟨[2,1], [0, 0]⟩)
    "manhattan" (some 2) false none ⟨0, 0⟩ ⟨0, 0⟩ [0, 1/2, 1] [0, 1/2, 1]
    eval_single_base

/-- C10: `get_tarp_coverage` with `bootstrap=True` and `num_bootstrap=0`
returns an empty ecp ensemble and `alpha = None` without failing (the loop
body never runs, so no alpha grid is computed). -/
theorem c10_zero_bootstrap (samples theta : NDArray) (references : Refs)
    (metric : String) (numAlphaBins : Option ℕ) (norm : Bool) (seed : Option ℕ)
    (st : RngState) (h : 2 ≤ samples.ndim) :
    getTarpCoverage samples theta references metric numAlphaBins 0 norm true seed st =
      (.ok (.boot [] none), st) := by
  unfold getTarpCoverage bootstrapCoverage
  rw [if_pos rfl, if_neg (by omega)]
  rfl

/-- Witness for C10 on a concrete rank-3 samples array. -/
theorem c10_witness :
    getTarpCoverage ⟨[1,1,1], [0]⟩ ⟨[1,1], [0]⟩ (.str "random") "euclidean"
      none 0 false true none ⟨3, 7⟩ = (.ok (.boot [] none), ⟨3, 7⟩) :=
  c10_zero_bootstrap ⟨[1,1,1], [0]⟩ ⟨[1,1], [0]⟩ (.str "random") "euclidean"
    none false none ⟨3, 7⟩ (by decide)

/-- One bootstrap iteration from ambient state `⟨0, 0⟩` with seed 0: the
index draw `[1, 1]` happens before any seeding, so it is a function of the
ambient state. -/
lemma eval_bootCoverage_amb0 :
    bootstrapCoverage ⟨[1,2,1], [1/4, 3/4]⟩ ⟨[2,1], [0, 1]⟩ (.arr ⟨[2,1], [0, 0]⟩)
      "manhattan" (some 2) 1 false (some 0) ⟨0, 0⟩ =
      (.ok ([[0, 0, 1]], some [0, 1/2, 1]), ⟨0, 0⟩) := by
  have hloop : bootLoop ⟨[1,2,1], [1/4, 3/4]⟩ ⟨[2,1], [0, 1]⟩ (.arr ⟨[2,1], [0, 0]⟩)
      "manhattan" 2 2 false (some 0) 1 ⟨0, 0⟩ =
      (.ok ([[0, 0, 1]], some [0, 1/2, 1]), ⟨0, 0⟩) := by
    simp only [bootLoop, eval_rand_s0, eval_res_idx11, eval_single11, Option.getD_none]
  unfold bootstrapCoverage
  rw [if_neg (by decide)]
  exact hloop

/-- The same call from ambient state `⟨1, 0⟩`: the pre-seeding index draw
is `[0, 0]`, and the returned curve differs. -/
lemma eval_bootCoverage_amb1 :
    bootstrapCoverage ⟨[1,2,1], [1/4, 3/4]⟩ ⟨[2,1], [0, 1]⟩ (.arr ⟨[2,1], [0, 0]⟩)
      "manhattan" (some 2) 1 false (some 0) ⟨1, 0⟩ =
      (.ok ([[0, 1, 1]], some [0, 1/2, 1]), ⟨0, 0⟩) := by
  have hloop : bootLoop ⟨[1,2,1], [1/4, 3/4]⟩ ⟨[2,1], [0, 1]⟩ (.arr ⟨[2,1], [0, 0]⟩)
      "manhattan" 2 2 false (some 0) 1 ⟨1, 0⟩ =
      (.ok ([[0, 1, 1]], some [0, 1/2, 1]), ⟨0, 0⟩) := by
    simp only [bootLoop, eval_rand_s1, eval_res_idx00, eval_single00, Option.getD_none]
  unfold bootstrapCoverage
  rw [if_neg (by decide)]
  exact hloop

/-- C3, counterexample: two bootstrap calls with identical inputs and the
same seed 0, differing only in the random-generator state existing before
the call, return different ecp ensembles — the index
draw happens before `np.random.seed` ever runs. -/
theorem c3_counterexample :
    (getTarpCoverage ⟨[1,2,1], [1/4, 3/4]⟩ ⟨[2,1], [0, 1]⟩ (.arr ⟨[2,1], [0, 0]⟩)
      "manhattan" (some 2) 1 false true (some 0) ⟨0, 0⟩).1 ≠
    (getTarpCoverage ⟨[1,2,1], [1/4, 3/4]⟩ ⟨[2,1], [0, 1]⟩ (.arr ⟨[2,1], [0, 0]⟩)
      "manhattan" (some 2) 1 false true (some 0) ⟨1, 0⟩).1 := by
  intro hcontra
  unfold getTarpCoverage at hcontra
  rw [if_pos rfl, if_pos rfl, eval_bootCoverage_amb0, eval_bootCoverage_amb1] at hcontra
  norm_num at hcontra

/-- C3, amended: in single-pass mode (`bootstrap=False`) two calls with
the same non-None seed and identical inputs return identical results and
leave the generator in the same state, whatever random state existed
before each call, because `np.random.seed(seed)` runs before any draw. -/
theorem c3_single_pass_seed_determinism (samples theta : NDArray) (references : Refs)
    (metric : String) (numAlphaBins : Option ℕ) (numBootstrap : ℕ) (norm : Bool)
    (s : ℕ) (st st' : RngState) :
    getTarpCoverage samples theta references metric numAlphaBins numBootstrap norm
      false (some s) st =
    getTarpCoverage samples theta references metric numAlphaBins numBootstrap norm
      false (some s) st' := rfl

/-- C1: evaluating `_get_tarp_coverage_bootstrap` at the failing input
(base scenario, `seed=0`, `num_bootstrap=3`, ambient state `⟨1, 0⟩`).
Because `np.random.seed(seed)` runs inside `_get_tarp_coverage_single`,
i.e. once per iteration and only after the index draw of that iteration, every
iteration after the first draws its dataset indices from a freshly
re-seeded stream: rows 1 and 2 of the returned ensemble are identical,
while row 0 still depends on the ambient pre-call state. -/
theorem c1_per_iteration_reseed_eval :
    bootstrapCoverage ⟨[1,2,1], [1/4, 3/4]⟩ ⟨[2,1], [0, 1]⟩ (.arr ⟨[2,1], [0, 0]⟩)
      "manhattan" (some 2) 3 false (some 0) ⟨1, 0⟩ =
      (.ok ([[0, 1, 1], [0, 0, 1], [0, 0, 1]], some [0, 1/2, 1]), ⟨0, 0⟩) := by
  have hloop : bootLoop ⟨[1,2,1], [1/4, 3/4]⟩ ⟨[2,1], [0, 1]⟩ (.arr ⟨[2,1], [0, 0]⟩)
      "manhattan" 2 2 false (some 0) 3 ⟨1, 0⟩ =
      (.ok ([[0, 1, 1], [0, 0, 1], [0, 0, 1]], some [0, 1/2, 1]), ⟨0, 0⟩) := by
    simp only [bootLoop, eval_rand_s0, eval_rand_s1, eval_res_idx00, eval_res_idx11,
      eval_single00, eval_single11, Option.getD_some, Option.getD_none]
  unfold bootstrapCoverage
  rw [if_neg (by decide)]
  exact hloop

/-- C6: each bootstrap iteration draws one length-N index vector with
values in `[0, N)` and uses that same vector to resample the dataset axis
of samples, the rows of theta, and — when references were supplied as an
array — the rows of references, so any per-dataset pairing between
references and truths (for instance a constant per-dimension offset) is
preserved; a string `references` is passed through unchanged. -/
theorem c6_coresampling (samples theta r : NDArray) (sref : String) (idx : List ℕ)
    (N : ℕ) (st : RngState) (hN : 0 < N) :
    ((randintList N N st).1.length = N ∧ ∀ v ∈ (randintList N N st).1, v < N) ∧
    (∀ s n d, s < samples.dim 0 → n < idx.length → d < samples.dim 2 →
      (bootResample samples theta (.arr r) idx).1.get3 s n d =
        samples.get3 s (idx.getD n 0) d) ∧
    (∀ n d, n < idx.length → d < theta.dim 1 →
      (bootResample samples theta (.arr r) idx).2.1.get2 n d =
        theta.get2 (idx.getD n 0) d) ∧
    ((bootResample samples theta (.arr r) idx).2.2 = .arr (reindexRows r idx) ∧
      ∀ n d, n < idx.length → d < r.dim 1 →
        (reindexRows r idx).get2 n d = r.get2 (idx.getD n 0) d) ∧
    (∀ off : ℕ → ℚ, (∀ n d, r.get2 n d - theta.get2 n d = off d) →
      ∀ n d, n < idx.length → d < theta.dim 1 → d < r.dim 1 →
        (reindexRows r idx).get2 n d - (reindexRows theta idx).get2 n d = off d) ∧
    (bootResample samples theta (.str sref) idx).2.2 = .str sref := by
  refine ⟨⟨randintList_length N N st, randintList_lt N N st hN⟩, ?_, ?_, ⟨rfl, ?_⟩, ?_, rfl⟩
  · intro s n d hs hn hd
    exact reindexMid_get3 samples idx hs hn hd
  · intro n d hn hd
    exact reindexRows_get2 theta idx hn hd
  · intro n d hn hd
    exact reindexRows_get2 r idx hn hd
  · intro off hoff n d hn hd1 hd2
    rw [reindexRows_get2 r idx hn hd2, reindexRows_get2 theta idx hn hd1]
    exact hoff _ _

/-- Witness for C6 on the base scenario with `idx = [1, 0]` and the
supplied references sitting at offset -1/2 from theta in the single
dimension. -/
theorem c6_witness :
    ((randintList 2 2 ⟨0, 0⟩).1.length = 2 ∧ ∀ v ∈ (randintList 2 2 ⟨0, 0⟩).1, v < 2) ∧
    (∀ s n d, s < (⟨[1,2,1], [1/4, 3/4]⟩ : NDArray).dim 0 → n < ([1, 0] : List ℕ).length →
      d < (⟨[1,2,1], [1/4, 3/4]⟩ : NDArray).dim 2 →
      (bootResample ⟨[1,2,1], [1/4, 3/4]⟩ ⟨[2,1], [0, 1]⟩ (.arr ⟨[2,1], [-(1/2), 1/2]⟩)
        [1, 0]).1.get3 s n d =
        (⟨[1,2,1], [1/4, 3/4]⟩ : NDArray).get3 s (([1, 0] : List ℕ).getD n 0) d) ∧
    (∀ n d, n < ([1, 0] : List ℕ).length → d < (⟨[2,1], [0, 1]⟩ : NDArray).dim 1 →
      (bootResample ⟨[1,2,1], [1/4, 3/4]⟩ ⟨[2,1], [0, 1]⟩ (.arr ⟨[2,1], [-(1/2), 1/2]⟩)
        [1, 0]).2.1.get2 n d =
        (⟨[2,1], [0, 1]⟩ : NDArray).get2 (([1, 0] : List ℕ).getD n 0) d) ∧
    ((bootResample ⟨[1,2,1], [1/4, 3/4]⟩ ⟨[2,1], [0, 1]⟩ (.arr ⟨[2,1], [-(1/2), 1/2]⟩)
        [1, 0]).2.2 = .arr (reindexRows ⟨[2,1], [-(1/2), 1/2]⟩ [1, 0]) ∧
      ∀ n d, n < ([1, 0] : List ℕ).length → d < (⟨[2,1], [-(1/2), 1/2]⟩ : NDArray).dim 1 →
        (reindexRows ⟨[2,1], [-(1/2), 1/2]⟩ [1, 0]).get2 n d =
          (⟨[2,1], [-(1/2), 1/2]⟩ : NDArray).get2 (([1, 0] : List ℕ).getD n 0) d) ∧
    (∀ off : ℕ → ℚ,
      (∀ n d, (⟨[2,1], [-(1/2), 1/2]⟩ : NDArray).get2 n d -
        (⟨[2,1], [0, 1]⟩ : NDArray).get2 n d = off d) →
      ∀ n d, n < ([1, 0] : List ℕ).length → d < (⟨[2,1], [0, 1]⟩ : NDArray).dim 1 →
        d < (⟨[2,1], [-(1/2), 1/2]⟩ : NDArray).dim 1 →
        (reindexRows ⟨[2,1], [-(1/2), 1/2]⟩ [1, 0]).get2 n d -
          (reindexRows ⟨[2,1], [0, 1]⟩ [1, 0]).get2 n d = off d) ∧
    (bootResample ⟨[1,2,1], [1/4, 3/4]⟩ ⟨[2,1], [0, 1]⟩ (.str "random") [1, 0]).2.2 =
      .str "random" :=
  c6_coresampling ⟨[1,2,1], [1/4, 3/4]⟩ ⟨[2,1], [0, 1]⟩ ⟨[2,1], [-(1/2), 1/2]⟩
    "random" [1, 0] 2 ⟨0, 0⟩ (by decide)

/-- C2, counterexample: for theta `[[0, 10], [1, 11]]` (N = 2 datasets,
D = 2 dimensions) the code normalizes entry (0, 1) to 0 — the extremes of
`np.min/np.max(theta, axis=1)` are per-dimension over the datasets (column
1 has min 10, max 11) — whereas the per-dataset extremes of the claim (row 0
has min 0, max 10) would give `10 / (10 + 1e-10) ≠ 0`. -/
theorem c2_counterexample :
    ((normalizeStage 2 [] [[0, 10], [1, 11]] [] false).2.1.getD 0 []).getD 1 0 = 0 ∧
    ((specNormalizeThetaPerDataset [[0, 10], [1, 11]]).getD 0 []).getD 1 0 =
      10 / (10 + eps) ∧
    ((normalizeStage 2 [] [[0, 10], [1, 11]] [] false).2.1.getD 0 []).getD 1 0 ≠
      ((specNormalizeThetaPerDataset [[0, 10], [1, 11]]).getD 0 []).getD 1 0 := by
  refine ⟨?_, ?_, ?_⟩ <;>
    norm_num [normalizeStage, specNormalizeThetaPerDataset, lowOf, highOf, colList,
      listMin, listMax, normRow, normEntry, eps, List.range_succ]

/-- C2, amended: when normalization is enabled the extremes are the
per-dimension minimum and maximum of theta taken over the N datasets
(`axis=1` of the `(1, N, D)` array) — shared by all datasets — and every
entry of samples, theta, and (only if caller-supplied) references is
rescaled by `(x - low_d) / (high_d - low_d + 1e-10)` with those per-dimension
extremes; references that were not supplied pass through the
normalization stage untouched. -/
theorem c2_per_dimension_normalization (D : ℕ) (samplesL : List (List (List ℚ)))
    (thetaL refsL : List (List ℚ)) (g : Bool) (hne : thetaL ≠ []) :
    (∀ d < D, (lowOf thetaL D).getD d 0 ∈ colList thetaL d ∧
      (∀ x ∈ colList thetaL d, (lowOf thetaL D).getD d 0 ≤ x) ∧
      (highOf thetaL D).getD d 0 ∈ colList thetaL d ∧
      (∀ x ∈ colList thetaL d, x ≤ (highOf thetaL D).getD d 0)) ∧
    (∀ n < thetaL.length, ∀ d < D,
      ((normalizeStage D samplesL thetaL refsL g).2.1.getD n []).getD d 0 =
        ((thetaL.getD n []).getD d 0 - (lowOf thetaL D).getD d 0) /
          ((highOf thetaL D).getD d 0 - (lowOf thetaL D).getD d 0 + eps)) ∧
    (∀ s < samplesL.length, ∀ n < (samplesL.getD s []).length, ∀ d < D,
      (((normalizeStage D samplesL thetaL refsL g).1.getD s []).getD n []).getD d 0 =
        (((samplesL.getD s []).getD n []).getD d 0 - (lowOf thetaL D).getD d 0) /
          ((highOf thetaL D).getD d 0 - (lowOf thetaL D).getD d 0 + eps)) ∧
    (∀ n < refsL.length, ∀ d < D,
      ((normalizeStage D samplesL thetaL refsL true).2.2.getD n []).getD d 0 =
        ((refsL.getD n []).getD d 0 - (lowOf thetaL D).getD d 0) /
          ((highOf thetaL D).getD d 0 - (lowOf thetaL D).getD d 0 + eps)) ∧
    (normalizeStage D samplesL thetaL refsL false).2.2 = refsL := by
  have hcol : ∀ d : ℕ, colList thetaL d ≠ [] := by
    intro d hcd
    exact hne (List.map_eq_nil_iff.1 hcd)
  have hlen : (lowOf thetaL D).length = D := lowOf_length thetaL D
  have hrow : ∀ (row : List ℚ), ∀ d < D,
      (normRow (lowOf thetaL D) (highOf thetaL D) row).getD d 0 =
        (row.getD d 0 - (lowOf thetaL D).getD d 0) /
          ((highOf thetaL D).getD d 0 - (lowOf thetaL D).getD d 0 + eps) := by
    intro row d hd
    exact normRow_getD (lowOf thetaL D) (highOf thetaL D) row (by omega)
  refine ⟨?_, ?_, ?_, ?_, rfl⟩
  · intro d hd
    rw [lowOf_getD thetaL hd, highOf_getD thetaL hd]
    exact ⟨listMin_mem _ (hcol d), fun x hx => listMin_le _ x hx,
      listMax_mem _ (hcol d), fun x hx => listMax_le _ x hx⟩
  · intro n hn d hd
    show ((thetaL.map (normRow (lowOf thetaL D) (highOf thetaL D))).getD n []).getD d 0 = _
    rw [getD_map_of_lt thetaL _ hn _ []]
    exact hrow _ d hd
  · intro s hs n hn d hd
    show (((samplesL.map fun mat =>
      mat.map (normRow (lowOf thetaL D) (highOf thetaL D))).getD s []).getD n []).getD d 0 = _
    rw [getD_map_of_lt samplesL _ hs _ []]
    rw [getD_map_of_lt _ _ hn _ []]
    exact hrow _ d hd
  · intro n hn d hd
    show ((if true = true then refsL.map (normRow (lowOf thetaL D) (highOf thetaL D))
      else refsL).getD n []).getD d 0 = _
    rw [if_pos rfl]
    rw [getD_map_of_lt refsL _ hn _ []]
    exact hrow _ d hd

/-- Witness for C2 amended, at the counterexample theta: entry (0, 1)
of the normalized theta equals `(10 - 10) / (11 - 10 + eps)`, the column-1
extremes over datasets being 10 and 11. -/
theorem c2_witness :
    ((normalizeStage 2 [] [[0, 10], [1, 11]] [] false).2.1.getD 0 []).getD 1 0 =
      ((([[0, 10], [1, 11]] : List (List ℚ)).getD 0 []).getD 1 0 -
        (lowOf [[0, 10], [1, 11]] 2).getD 1 0) /
      ((highOf [[0, 10], [1, 11]] 2).getD 1 0 -
        (lowOf [[0, 10], [1, 11]] 2).getD 1 0 + eps) :=
  (c2_per_dimension_normalization 2 [] [[0, 10], [1, 11]] [] false
    (by decide)).2.1 0 (by decide) 1 (by decide)

/-- C7, counterexample: in bootstrap mode a theta whose row count (3)
differs from the dataset axis of samples (2) is silently truncated by the
resampling `theta[idx, :]` before the per-iteration validation runs, so
the call returns an `(ecp, alpha)` result instead of raising the shape
error that the single-pass checks would produce. -/
theorem c7_bootstrap_counterexample :
    (⟨[3,1], [5, 7, 9]⟩ : NDArray).dim 0 = 3 ∧
    (⟨[1,2,1], [1/4, 3/4]⟩ : NDArray).dim 1 = 2 ∧
    specShapeError ⟨[1,2,1], [1/4, 3/4]⟩ ⟨[3,1], [5, 7, 9]⟩ (.arr ⟨[2,1], [0, 0]⟩) =
      some "theta must have the same number of rows as samples" ∧
    (getTarpCoverage ⟨[1,2,1], [1/4, 3/4]⟩ ⟨[3,1], [5, 7, 9]⟩ (.arr ⟨[2,1], [0, 0]⟩)
      "manhattan" (some 1) 1 false true none ⟨0, 0⟩).1 =
      .ok (.boot [[0, 1]] (some [0, 1])) := by
  have hloop : bootLoop ⟨[1,2,1], [1/4, 3/4]⟩ ⟨[3,1], [5, 7, 9]⟩ (.arr ⟨[2,1], [0, 0]⟩)
      "manhattan" 2 1 false none 1 ⟨0, 0⟩ = (.ok ([[0, 1]], some [0, 1]), ⟨0, 2⟩) := by
    simp only [bootLoop, eval_rand_s0, eval_res_oversized_theta, eval_single77,
      Option.getD_none]
  have hbc : bootstrapCoverage ⟨[1,2,1], [1/4, 3/4]⟩ ⟨[3,1], [5, 7, 9]⟩
      (.arr ⟨[2,1], [0, 0]⟩) "manhattan" (some 1) 1 false none ⟨0, 0⟩ =
      (.ok ([[0, 1]], some [0, 1]), ⟨0, 2⟩) := by
    unfold bootstrapCoverage
    rw [if_neg (by decide)]
    exact hloop
  refine ⟨rfl, rfl, by decide, ?_⟩
  unfold getTarpCoverage
  rw [if_pos rfl, hbc]

/-- C7, amended: in single-pass mode every violated shape constraint —
samples not rank 3, theta not rank 2, theta row/column mismatch, a tensor
references not rank 2 or mismatched — raises the corresponding
`ValueError` (the first one in source order) before the numeric pipeline;
in bootstrap mode the checks only see the per-iteration resampled arrays,
so some mismatches (e.g. theta with extra rows) escape detection. -/
theorem c7_single_pass_shape_errors (samples theta : NDArray) (references : Refs)
    (metric : String) (numAlphaBins : Option ℕ) (norm : Bool) (seed : Option ℕ)
    (st : RngState) (msg : String)
    (h : specShapeError samples theta references = some msg) :
    (singlePass samples theta references metric numAlphaBins norm seed st).1 =
      .error msg := by
  simp only [specShapeError] at h
  simp only [singlePass]
  by_cases h1 : samples.ndim ≠ 3
  · rw [if_pos h1] at h; rw [if_pos h1]; obtain rfl := Option.some.inj h; rfl
  · rw [if_neg h1] at h; rw [if_neg h1]
    by_cases h2 : theta.ndim ≠ 2
    · rw [if_pos h2] at h; rw [if_pos h2]; obtain rfl := Option.some.inj h; rfl
    · rw [if_neg h2] at h; rw [if_neg h2]
      by_cases h3 : theta.dim 0 ≠ samples.dim 1
      · rw [if_pos h3] at h; rw [if_pos h3]; obtain rfl := Option.some.inj h; rfl
      · rw [if_neg h3] at h; rw [if_neg h3]
        by_cases h4 : theta.dim 1 ≠ samples.dim 2
        · rw [if_pos h4] at h; rw [if_pos h4]; obtain rfl := Option.some.inj h; rfl
        · rw [if_neg h4] at h; rw [if_neg h4]
          rcases references with s | r
          · simp only at h ⊢
            by_cases h5 : s = "random"
            · rw [if_pos h5] at h; exact absurd h (by simp)
            · rw [if_neg h5] at h; rw [if_neg h5]
              obtain rfl := Option.some.inj h; rfl
          · simp only at h ⊢
            by_cases h6 : r.ndim ≠ 2
            · rw [if_pos h6] at h; rw [if_pos h6]; obtain rfl := Option.some.inj h; rfl
            · rw [if_neg h6] at h; rw [if_neg h6]
              by_cases h7 : r.dim 0 ≠ samples.dim 1
              · rw [if_pos h7] at h; rw [if_pos h7]; obtain rfl := Option.some.inj h; rfl
              · rw [if_neg h7] at h; rw [if_neg h7]
                by_cases h8 : r.dim 1 ≠ samples.dim 2
                · rw [if_pos h8] at h; rw [if_pos h8]
                  obtain rfl := Option.some.inj h; rfl
                · rw [if_neg h8] at h; exact absurd h (by simp)

/-- Witness for C7 amended: a rank-2 samples array raises the rank error
in single-pass mode. -/
theorem c7_witness :
    (singlePass ⟨[2,1], [0, 1]⟩ ⟨[2,1], [0, 1]⟩ (.str "random") "euclidean"
      none true none ⟨0, 0⟩).1 = .error "samples must be a 3D array" :=
  c7_single_pass_shape_errors ⟨[2,1], [0, 1]⟩ ⟨[2,1], [0, 1]⟩ (.str "random")
    "euclidean" none true none ⟨0, 0⟩ "samples must be a 3D array" (by decide)

/-- The unsupported-metric branch of the numeric pipeline. -/
lemma corePipeline_bad_metric {S N D k : ℕ} {sL : List (List (List ℚ))}
    {tL rL : List (List ℚ)} {g : Bool} {metric : String} {nrm : Bool}
    (h1 : metric ≠ "euclidean") (h2 : metric ≠ "manhattan") :
    corePipeline S N D k sL tL rL g metric nrm =
      .error "metric must be either euclidean or manhattan" := by
  simp only [corePipeline]
  rw [if_neg h1, if_neg h2]

/-- C8: a metric selector other than "euclidean" and "manhattan" raises
the unsupported-metric error (on shape-valid inputs, which reach the
metric dispatch), and the two supported metrics compute, per dimension
pair, the square root of the summed squared differences and the summed
absolute differences respectively. -/
theorem c8_metric_contract :
    (∀ (samples theta : NDArray) (references : Refs) (metric : String)
      (numAlphaBins : Option ℕ) (norm : Bool) (seed : Option ℕ) (st : RngState),
      specShapeError samples theta references = none →
      metric ≠ "euclidean" → metric ≠ "manhattan" →
      (singlePass samples theta references metric numAlphaBins norm seed st).1 =
        .error "metric must be either euclidean or manhattan") ∧
    (∀ (D : ℕ) (a b : List ℚ), a.length = D → b.length = D →
      euclidDist a b =
        Real.sqrt (∑ i ∈ Finset.range D, ((a.getD i 0 : ℝ) - (b.getD i 0 : ℝ)) ^ 2)) ∧
    (∀ (D : ℕ) (a b : List ℚ), a.length = D → b.length = D →
      manhattanDist a b = ∑ i ∈ Finset.range D, |a.getD i 0 - b.getD i 0|) := by
  refine ⟨?_, ?_, ?_⟩
  · intro samples theta references metric numAlphaBins norm seed st hv hm1 hm2
    simp only [specShapeError] at hv
    simp only [singlePass]
    by_cases h1 : samples.ndim ≠ 3
    · rw [if_pos h1] at hv; exact absurd hv (by simp)
    · rw [if_neg h1] at hv; rw [if_neg h1]
      by_cases h2 : theta.ndim ≠ 2
      · rw [if_pos h2] at hv; exact absurd hv (by simp)
      · rw [if_neg h2] at hv; rw [if_neg h2]
        by_cases h3 : theta.dim 0 ≠ samples.dim 1
        · rw [if_pos h3] at hv; exact absurd hv (by simp)
        · rw [if_neg h3] at hv; rw [if_neg h3]
          by_cases h4 : theta.dim 1 ≠ samples.dim 2
          · rw [if_pos h4] at hv; exact absurd hv (by simp)
          · rw [if_neg h4] at hv; rw [if_neg h4]
            rcases references with s | r
            · simp only at hv ⊢
              by_cases h5 : s = "random"
              · rw [if_pos h5, corePipeline_bad_metric hm1 hm2]
              · rw [if_neg h5] at hv; exact absurd hv (by simp)
            · simp only at hv ⊢
              by_cases h6 : r.ndim ≠ 2
              · rw [if_pos h6] at hv; exact absurd hv (by simp)
              · rw [if_neg h6] at hv; rw [if_neg h6]
                by_cases h7 : r.dim 0 ≠ samples.dim 1
                · rw [if_pos h7] at hv; exact absurd hv (by simp)
                · rw [if_neg h7] at hv; rw [if_neg h7]
                  by_cases h8 : r.dim 1 ≠ samples.dim 2
                  · rw [if_pos h8] at hv; exact absurd hv (by simp)
                  · rw [if_neg h8] at hv; rw [if_neg h8]
                    rw [corePipeline_bad_metric hm1 hm2]
  · intro D a b ha hb
    unfold euclidDist
    rw [zipWith_sum_range (fun x y => ((x : ℝ) - (y : ℝ)) ^ 2) D a b ha hb]
  · intro D a b ha hb
    unfold manhattanDist
    rw [zipWith_sum_range (fun x y => |x - y|) D a b ha hb]

/-- Witness for C8: the metric "chebyshev" is rejected on a shape-valid
input, and both distance formulas evaluated on the 1-dimensional pair
(3, 1). -/
theorem c8_witness :
    (singlePass ⟨[1,2,1], [1/4, 3/4]⟩ ⟨[2,1], [0, 1]⟩ (.arr ⟨[2,1], [0, 0]⟩)
      "chebyshev" (some 2) false none ⟨0, 0⟩).1 =
      .error "metric must be either euclidean or manhattan" ∧
    euclidDist [3] [1] = Real.sqrt (∑ i ∈ Finset.range 1,
      ((([3] : List ℚ).getD i 0 : ℝ) - (([1] : List ℚ).getD i 0 : ℝ)) ^ 2) ∧
    manhattanDist [3] [1] = ∑ i ∈ Finset.range 1,
      |([3] : List ℚ).getD i 0 - ([1] : List ℚ).getD i 0| :=
  ⟨c8_metric_contract.1 ⟨[1,2,1], [1/4, 3/4]⟩ ⟨[2,1], [0, 1]⟩ (.arr ⟨[2,1], [0, 0]⟩)
      "chebyshev" (some 2) false none ⟨0, 0⟩ (by decide) (by decide) (by decide),
    c8_metric_contract.2.1 1 [3] [1] rfl rfl,
    c8_metric_contract.2.2 1 [3] [1] rfl rfl⟩

end Tarp
